import Mathlib

/-!
# Peer scorer (`op-node/p2p/peer_scorer.go`)

A shallow embedding of the peer scorer: the inspection hook returned by
`SnapshotHook`, the helper `contains`, and the two notification methods
`OnConnect` / `OnDisconnect`.

The collaborators of the scorer (`ConnectionGater`, `GossipMetricer`) are Go
interfaces declared outside this file of the repository. They are taken as
parameters: records of operations over an arbitrary world state `σ`.
-/

namespace PeerScorer

/-! ## Data model -/

/-- Peer identifiers: `peer.ID` is a Go string type. -/
abbrev PeerID := String

/-- The values of a Go `float64` as far as ordered comparison can tell them
apart: not-a-number, the two infinities, and the finite values (each finite
double is a rational; both zeros are `fin 0`). -/
inductive F64 where
  | nan : F64
  | negInf : F64
  | posInf : F64
  | fin (q : ℚ) : F64
  deriving DecidableEq

/-- Go `a < b` on `float64`: false as soon as one operand is NaN. -/
def F64.lt : F64 → F64 → Bool
  | .nan, _ => false
  | _, .nan => false
  | .negInf, .negInf => false
  | .negInf, _ => true
  | _, .negInf => false
  | .posInf, _ => false
  | .fin _, .posInf => true
  | .fin a, .fin b => decide (a < b)

/-- Go `a > b` on `float64`, which is `b < a`. -/
def F64.gt (a b : F64) : Bool := F64.lt b a

/-- `const ConnectionFactor = -10`. -/
def ConnectionFactor : F64 := .fin (-10)

/-- `const PeerScoreThreshold = -100`. -/
def PeerScoreThreshold : F64 := .fin (-100)

/-- The part of `pubsub.PeerScoreSnapshot` that the scorer reads. -/
structure PeerScoreSnapshot where
  Score : F64
  deriving DecidableEq

/-- A Go `error` value: `none` is `nil`. -/
abbrev GoError := Option String

/-- The `ConnectionGater` interface, as far as the scorer uses it. Each
mutating method returns the new world state and its `error` result. -/
structure ConnectionGater (σ : Type) where
  BlockPeer : PeerID → σ → σ × GoError
  UnblockPeer : PeerID → σ → σ × GoError
  ListBlockedPeers : σ → List PeerID

/-- The `GossipMetricer` interface, as far as the scorer uses it. -/
structure GossipMetricer (σ : Type) where
  RecordPeerScoring : PeerID → F64 → σ → σ

/-- The receiver: `type scorer struct`. The `peerStore` field is never read by
any method and carries no behaviour here. -/
structure scorer (σ : Type) where
  connGater : ConnectionGater σ
  peerStore : Unit
  metricer : GossipMetricer σ

/-- `NewScorer` stores its three arguments in the struct. -/
def NewScorer {σ : Type} (connGater : ConnectionGater σ) (peerStore : Unit)
    (metricer : GossipMetricer σ) : scorer σ :=
  { connGater := connGater, peerStore := peerStore, metricer := metricer }

/-- A call made by the scorer on one of its collaborators, with its arguments. -/
inductive Call where
  | RecordPeerScoring (id : PeerID) (score : F64) : Call
  | BlockPeer (id : PeerID) : Call
  | UnblockPeer (id : PeerID) : Call
  | ListBlockedPeers : Call
  deriving DecidableEq

/-- One entry of `map[peer.ID]*pubsub.PeerScoreSnapshot`: the value is a
pointer, `none` is the nil pointer. -/
abbrev Entry := PeerID × Option PeerScoreSnapshot

/-- A value of type `map[peer.ID]*pubsub.PeerScoreSnapshot`. `none` is the nil
map; `some l` lists the entries in the order in which `range` visits them. The
keys of a map are distinct (`Snapshot.WF`). -/
abbrev Snapshot := Option (List Entry)

/-- The entries visited by `for id, snap := range m`: none for a nil map. -/
def Snapshot.entries : Snapshot → List Entry
  | none => []
  | some l => l

/-- The keys of a list of entries. -/
def keys (l : List Entry) : List PeerID := l.map Prod.fst

/-- The keys of a map are pairwise distinct. -/
def Snapshot.WF (m : Snapshot) : Prop := (keys m.entries).Nodup

/-- Every value of the map is a non-nil pointer. -/
def Snapshot.NonNil (m : Snapshot) : Prop := ∀ e ∈ m.entries, e.2 ≠ none

instance (m : Snapshot) : Decidable m.WF :=
  inferInstanceAs (Decidable (keys m.entries).Nodup)

instance (m : Snapshot) : Decidable m.NonNil :=
  inferInstanceAs (Decidable (∀ e ∈ m.entries, e.2 ≠ none))

/-- What a run of the hook leaves behind: the world state, the calls it made on
its collaborators in order, and whether it ended in a panic. -/
structure Run (σ : Type) where
  state : σ
  calls : List Call
  panicked : Bool
  deriving DecidableEq

/-! ## The code -/

/-- `func contains(peers []peer.ID, id peer.ID) bool`. -/
def contains : List PeerID → PeerID → Bool
  | [], _ => false
  | v :: rest, id => if v = id then true else contains rest id

/-- The first `if` of the loop body: block a peer whose score is below the
threshold; the returned error is discarded (`_ =`). -/
def blockStep {σ : Type} (s : scorer σ) (id : PeerID) (score : F64) (st : σ) :
    σ × List Call :=
  if F64.lt score PeerScoreThreshold then
    ((s.connGater.BlockPeer id st).1, [Call.BlockPeer id])
  else
    (st, [])

/-- The second `if` of the loop body. `&&` short-circuits: `ListBlockedPeers`
is called only when the score is above the threshold, and `UnblockPeer` only
when `contains` finds the peer in the list; the returned error is discarded. -/
def unblockStep {σ : Type} (s : scorer σ) (id : PeerID) (score : F64) (st : σ) :
    σ × List Call :=
  if F64.gt score PeerScoreThreshold then
    if contains (s.connGater.ListBlockedPeers st) id then
      ((s.connGater.UnblockPeer id st).1, [Call.ListBlockedPeers, Call.UnblockPeer id])
    else
      (st, [Call.ListBlockedPeers])
  else
    (st, [])

/-- The loop body for an entry with a non-nil snapshot. -/
def body {σ : Type} (s : scorer σ) (id : PeerID) (snap : PeerScoreSnapshot) (st : σ) :
    σ × List Call :=
  let st1 := s.metricer.RecordPeerScoring id snap.Score st
  let b := blockStep s id snap.Score st1
  let u := unblockStep s id snap.Score b.1
  (u.1, Call.RecordPeerScoring id snap.Score :: (b.2 ++ u.2))

/-- The `for ... range` loop over the entries in visiting order. Reading
`snap.Score` through a nil pointer panics before any call is made for that
entry, and the remaining entries are not visited. -/
def loop {σ : Type} (s : scorer σ) : List Entry → σ → Run σ
  | [], st => { state := st, calls := [], panicked := false }
  | (_, none) :: _, st => { state := st, calls := [], panicked := true }
  | (id, some snap) :: rest, st =>
    let r := loop s rest (body s id snap st).1
    { state := r.state, calls := (body s id snap st).2 ++ r.calls, panicked := r.panicked }

/-- The function returned by `(s *scorer) SnapshotHook()`, applied to a map
and run from world state `st`. -/
def SnapshotHook {σ : Type} (s : scorer σ) (m : Snapshot) (st : σ) : Run σ :=
  loop s m.entries st

/-- `func (s *scorer) OnConnect()`: the body is empty. The result is the
receiver and the world state after the call. -/
def OnConnect {σ : Type} (s : scorer σ) (st : σ) : scorer σ × σ := (s, st)

/-- `func (s *scorer) OnDisconnect()`: the body is empty. -/
def OnDisconnect {σ : Type} (s : scorer σ) (st : σ) : scorer σ × σ := (s, st)

/-! ## Collaborators used for concrete runs -/

/-- Modelled from the spec: the Connection Gate implementation is not part of
this file of the repository. A gate whose state is the list of blocked peers:
`BlockPeer` inserts (a no-op success on a blocked peer), `UnblockPeer` removes,
`ListBlockedPeers` returns the current list; no call fails. -/
def setGate : ConnectionGater (List PeerID) where
  BlockPeer := fun id st => (if id ∈ st then st else id :: st, none)
  UnblockPeer := fun id st => (st.filter (fun p => p ≠ id), none)
  ListBlockedPeers := fun st => st

/-- Modelled from the spec: a Connection Gate whose calls can fail (a transient
store error). The calls for the peers selected by `failB` (`BlockPeer`) and
`failU` (`UnblockPeer`) return an error and change nothing; all other calls
behave as in `setGate`. -/
def faultyGate (failB failU : PeerID → Bool) : ConnectionGater (List PeerID) where
  BlockPeer := fun id st =>
    if failB id then (st, some "block failed") else setGate.BlockPeer id st
  UnblockPeer := fun id st =>
    if failU id then (st, some "unblock failed") else setGate.UnblockPeer id st
  ListBlockedPeers := fun st => st

/-- A metrics sink that keeps no state in the world. -/
def nullMetricer (σ : Type) : GossipMetricer σ where
  RecordPeerScoring := fun _ _ st => st

/-- The scorer wired to the set gate. -/
def setScorer : scorer (List PeerID) := NewScorer setGate () (nullMetricer _)

/-- The scorer wired to a faulty gate. -/
def faultyScorer (failB failU : PeerID → Bool) : scorer (List PeerID) :=
  NewScorer (faultyGate failB failU) () (nullMetricer _)

/-! ## Inputs used by the concrete checks -/

/-- Scenario 1 of the specification: `{A: -150, B: -50}`. -/
def snapAB : Snapshot :=
  some [("A", some ⟨.fin (-150)⟩), ("B", some ⟨.fin (-50)⟩)]

/-- The same map visited in the other order. -/
def snapBA : Snapshot :=
  some [("B", some ⟨.fin (-50)⟩), ("A", some ⟨.fin (-150)⟩)]

/-- Scenario 2: `{A: -90}`. -/
def snapRecovered : Snapshot := some [("A", some ⟨.fin (-90)⟩)]

/-- Scenario 3: `{A: -100}`, the exact threshold. -/
def snapBoundary : Snapshot := some [("A", some ⟨.fin (-100)⟩)]

/-- The map `{C: -200}`. -/
def snapC : Snapshot := some [("C", some ⟨.fin (-200)⟩)]

/-- Selects the peer `C`. -/
def onlyC : PeerID → Bool := fun p => decide (p = "C")

/-- Selects no peer. -/
def noPeer : PeerID → Bool := fun _ => false

/-- Scenario 5: `{C: -200, D: -50}` with `D` blocked beforehand. -/
def snapCD : Snapshot :=
  some [("C", some ⟨.fin (-200)⟩), ("D", some ⟨.fin (-50)⟩)]

/-! ## Reading a run -/

/-- Peer `p` is in the blocked set of world state `st`: it occurs in the list
that `ListBlockedPeers` returns there. -/
def blocked {σ : Type} (s : scorer σ) (st : σ) (p : PeerID) : Prop :=
  p ∈ s.connGater.ListBlockedPeers st

instance {σ : Type} (s : scorer σ) (st : σ) (p : PeerID) : Decidable (blocked s st p) :=
  inferInstanceAs (Decidable (p ∈ s.connGater.ListBlockedPeers st))

/-- The metric events among the calls of a run, in order. -/
def recordEvents : List Call → List (PeerID × F64)
  | [] => []
  | Call.RecordPeerScoring id sc :: rest => (id, sc) :: recordEvents rest
  | _ :: rest => recordEvents rest

/-- The `(id, score)` pairs of the entries with a non-nil snapshot, in order. -/
def scores : List Entry → List (PeerID × F64)
  | [] => []
  | (id, some snap) :: rest => (id, snap.Score) :: scores rest
  | (_, none) :: rest => scores rest

/-- The gate behaves as a set of blocked peers. A call for one peer, failed or
not, and a metrics call leave the membership of every other peer as it was; a
`BlockPeer` that returns no error has the peer in the set, an `UnblockPeer`
that returns no error has it out of the set. -/
structure GateLaws {σ : Type} (s : scorer σ) : Prop where
  record_frame : ∀ id sc st p,
    blocked s (s.metricer.RecordPeerScoring id sc st) p ↔ blocked s st p
  block_frame : ∀ id st p, p ≠ id →
    (blocked s (s.connGater.BlockPeer id st).1 p ↔ blocked s st p)
  unblock_frame : ∀ id st p, p ≠ id →
    (blocked s (s.connGater.UnblockPeer id st).1 p ↔ blocked s st p)
  block_ok : ∀ id st, (s.connGater.BlockPeer id st).2 = none →
    blocked s (s.connGater.BlockPeer id st).1 id
  unblock_ok : ∀ id st, (s.connGater.UnblockPeer id st).2 = none →
    ¬ blocked s (s.connGater.UnblockPeer id st).1 id

/-- Every `BlockPeer` call returns a nil error. -/
def BlockSucceeds {σ : Type} (s : scorer σ) : Prop :=
  ∀ id st, (s.connGater.BlockPeer id st).2 = none

/-- Every `UnblockPeer` call returns a nil error. -/
def UnblockSucceeds {σ : Type} (s : scorer σ) : Prop :=
  ∀ id st, (s.connGater.UnblockPeer id st).2 = none

/-- The same collaborators with every returned error replaced by nil. -/
def silenced {σ : Type} (s : scorer σ) : scorer σ where
  connGater :=
    { BlockPeer := fun id st => ((s.connGater.BlockPeer id st).1, none)
      UnblockPeer := fun id st => ((s.connGater.UnblockPeer id st).1, none)
      ListBlockedPeers := s.connGater.ListBlockedPeers }
  peerStore := s.peerStore
  metricer := s.metricer

/-- A notification delivered to the scorer by the network layer. -/
inductive PeerEvent where
  | connect : PeerEvent
  | disconnect : PeerEvent
  deriving DecidableEq

/-- The receiver and the world after a sequence of `OnConnect` /
`OnDisconnect` calls. -/
def notifyAll {σ : Type} : List PeerEvent → scorer σ → σ → scorer σ × σ
  | [], s, st => (s, st)
  | PeerEvent.connect :: rest, s, st => notifyAll rest (OnConnect s st).1 (OnConnect s st).2
  | PeerEvent.disconnect :: rest, s, st =>
    notifyAll rest (OnDisconnect s st).1 (OnDisconnect s st).2

/-- The specification's per-peer rule of `Evaluate` (section 4.1, steps 1 to
4), written as the chain it describes: report the score; if it is below the
threshold, block; else if it is above the threshold and the peer is in the
gate's blocked list, unblock; otherwise do nothing more. -/
def specEvaluateStep {σ : Type} (s : scorer σ) (id : PeerID) (score : F64) (st : σ) :
    σ × List Call :=
  let st1 := s.metricer.RecordPeerScoring id score st
  if F64.lt score PeerScoreThreshold then
    ((s.connGater.BlockPeer id st1).1, [Call.RecordPeerScoring id score, Call.BlockPeer id])
  else if F64.gt score PeerScoreThreshold then
    if contains (s.connGater.ListBlockedPeers st1) id then
      ((s.connGater.UnblockPeer id st1).1,
        [Call.RecordPeerScoring id score, Call.ListBlockedPeers, Call.UnblockPeer id])
    else
      (st1, [Call.RecordPeerScoring id score, Call.ListBlockedPeers])
  else
    (st1, [Call.RecordPeerScoring id score])

/-- The specification's `Evaluate` over the `(peerID, score)` pairs of a score
snapshot, taken in some order. -/
def specEvaluate {σ : Type} (s : scorer σ) : List (PeerID × F64) → σ → σ × List Call
  | [], st => (st, [])
  | (id, score) :: rest, st =>
    let r := specEvaluate s rest (specEvaluateStep s id score st).1
    (r.1, (specEvaluateStep s id score st).2 ++ r.2)

/-- A call that mutates the gate on behalf of peer `p`. -/
def isMutatingFor (p : PeerID) : Call → Bool
  | Call.BlockPeer id => decide (id = p)
  | Call.UnblockPeer id => decide (id = p)
  | _ => false

/-- The mutating gate calls for peer `p` among the calls of a run, in order. -/
def mutatingCalls (p : PeerID) (calls : List Call) : List Call :=
  calls.filter (isMutatingFor p)

/-- A map with a nil value between two non-nil ones, visited as `A, B, C`. -/
def snapNil : Snapshot :=
  some [("A", some ⟨.fin (-150)⟩), ("B", none), ("C", some ⟨.fin (-200)⟩)]

/-- The map `{A: -95}`: above the threshold by less than one `ConnectionFactor`. -/
def snapNear : Snapshot := some [("A", some ⟨.fin (-95)⟩)]

/-! ## Basic facts -/

theorem contains_eq_true_iff (peers : List PeerID) (id : PeerID) :
    contains peers id = true ↔ id ∈ peers := by
  induction peers with
  | nil => simp [contains]
  | cons v rest ih =>
    by_cases h : v = id
    · simp [contains, h]
    · have h' : ¬ id = v := fun e => h e.symm
      simp [contains, h, h', ih]

theorem lt_threshold_not_gt (x : F64) (h : F64.lt x PeerScoreThreshold = true) :
    F64.gt x PeerScoreThreshold = false := by
  cases x with
  | nan => simp [F64.lt] at h
  | negInf => simp [F64.gt, F64.lt, PeerScoreThreshold]
  | posInf => simp [F64.lt, PeerScoreThreshold] at h
  | fin q =>
    simp only [F64.lt, PeerScoreThreshold, decide_eq_true_eq] at h
    simp only [F64.gt, F64.lt, PeerScoreThreshold, decide_eq_false_iff_not, not_lt]
    exact le_of_lt h

theorem threshold_not_lt : F64.lt PeerScoreThreshold PeerScoreThreshold = false := by
  decide

theorem threshold_not_gt : F64.gt PeerScoreThreshold PeerScoreThreshold = false := by
  decide

theorem mem_keys_of_mem {l : List Entry} {p : PeerID} {v : Option PeerScoreSnapshot}
    (h : (p, v) ∈ l) : p ∈ keys l :=
  List.mem_map.mpr ⟨(p, v), h, rfl⟩

theorem value_unique {l : List Entry} (hwf : (keys l).Nodup) {p : PeerID}
    {a b : Option PeerScoreSnapshot} (ha : (p, a) ∈ l) (hb : (p, b) ∈ l) : a = b := by
  induction l with
  | nil => cases ha
  | cons e rest ih =>
    have hnd : e.1 ∉ keys rest ∧ (keys rest).Nodup := by
      simpa [keys] using hwf
    rcases List.mem_cons.mp ha with ha | ha <;> rcases List.mem_cons.mp hb with hb | hb
    · have := ha.trans hb.symm
      exact (Prod.mk.inj this).2
    · exact absurd (mem_keys_of_mem hb) (by rw [← ha] at hnd; exact hnd.1)
    · exact absurd (mem_keys_of_mem ha) (by rw [← hb] at hnd; exact hnd.1)
    · exact ih hnd.2 ha hb

theorem gt_threshold_not_lt (x : F64) (h : F64.gt x PeerScoreThreshold = true) :
    F64.lt x PeerScoreThreshold = false := by
  cases hlt : F64.lt x PeerScoreThreshold with
  | false => rfl
  | true => rw [lt_threshold_not_gt x hlt] at h; cases h

/-! ## One pass of the loop body -/

section Body

variable {σ : Type} {s : scorer σ}

theorem body_blocked_other (hL : GateLaws s) {p id : PeerID} (hne : p ≠ id)
    (snap : PeerScoreSnapshot) (st : σ) :
    blocked s (body s id snap st).1 p ↔ blocked s st p := by
  simp only [body, blockStep, unblockStep]
  split_ifs <;>
    simp [hL.record_frame, hL.block_frame _ _ _ hne, hL.unblock_frame _ _ _ hne]

theorem body_state_lt {id : PeerID} {snap : PeerScoreSnapshot}
    (hlt : F64.lt snap.Score PeerScoreThreshold = true) (st : σ) :
    (body s id snap st).1 =
      (s.connGater.BlockPeer id (s.metricer.RecordPeerScoring id snap.Score st)).1 := by
  simp [body, blockStep, unblockStep, hlt, lt_threshold_not_gt _ hlt]

theorem body_state_gt {id : PeerID} {snap : PeerScoreSnapshot}
    (hgt : F64.gt snap.Score PeerScoreThreshold = true) (st : σ) :
    (body s id snap st).1 =
      if contains (s.connGater.ListBlockedPeers
          (s.metricer.RecordPeerScoring id snap.Score st)) id then
        (s.connGater.UnblockPeer id (s.metricer.RecordPeerScoring id snap.Score st)).1
      else s.metricer.RecordPeerScoring id snap.Score st := by
  simp only [body, blockStep, unblockStep, hgt, gt_threshold_not_lt _ hgt]
  split_ifs <;> simp_all

theorem body_state_dead {id : PeerID} {snap : PeerScoreSnapshot}
    (hlt : F64.lt snap.Score PeerScoreThreshold = false)
    (hgt : F64.gt snap.Score PeerScoreThreshold = false) (st : σ) :
    (body s id snap st).1 = s.metricer.RecordPeerScoring id snap.Score st := by
  simp [body, blockStep, unblockStep, hlt, hgt]

theorem body_lt_blocked (hL : GateLaws s) (hB : BlockSucceeds s) {id : PeerID}
    {snap : PeerScoreSnapshot} (hlt : F64.lt snap.Score PeerScoreThreshold = true) (st : σ) :
    blocked s (body s id snap st).1 id := by
  rw [body_state_lt hlt]
  exact hL.block_ok _ _ (hB _ _)

theorem body_gt_not_blocked (hL : GateLaws s) (hU : UnblockSucceeds s) {id : PeerID}
    {snap : PeerScoreSnapshot} (hgt : F64.gt snap.Score PeerScoreThreshold = true) (st : σ) :
    ¬ blocked s (body s id snap st).1 id := by
  rw [body_state_gt hgt]
  split_ifs with hc
  · exact hL.unblock_ok _ _ (hU _ _)
  · intro hb
    exact hc ((contains_eq_true_iff _ _).mpr hb)

theorem body_dead_blocked (hL : GateLaws s) {id : PeerID} {snap : PeerScoreSnapshot}
    (hlt : F64.lt snap.Score PeerScoreThreshold = false)
    (hgt : F64.gt snap.Score PeerScoreThreshold = false) (st : σ) :
    blocked s (body s id snap st).1 id ↔ blocked s st id := by
  rw [body_state_dead hlt hgt]
  exact hL.record_frame _ _ _ _

/-- When the gate's calls for `c` leave the membership of `c` as it was, so
does the loop body for `c`, whatever the score. -/
theorem body_self_of_nochange (hL : GateLaws s) {c : PeerID}
    (hB : ∀ x, blocked s (s.connGater.BlockPeer c x).1 c ↔ blocked s x c)
    (hU : ∀ x, blocked s (s.connGater.UnblockPeer c x).1 c ↔ blocked s x c)
    (snap : PeerScoreSnapshot) (st : σ) :
    blocked s (body s c snap st).1 c ↔ blocked s st c := by
  simp only [body, blockStep, unblockStep]
  split_ifs <;> simp [hL.record_frame, hB, hU]

end Body

/-! ## The loop -/

section Loop

variable {σ : Type} {s : scorer σ}

theorem loop_blocked_of_unchanged (hL : GateLaws s) (p : PeerID) (l : List Entry)
    (h : ∀ snap st, (p, some snap) ∈ l →
      (blocked s (body s p snap st).1 p ↔ blocked s st p)) (st : σ) :
    blocked s (loop s l st).state p ↔ blocked s st p := by
  induction l generalizing st with
  | nil => simp [loop]
  | cons e rest ih =>
    obtain ⟨id, v⟩ := e
    cases v with
    | none => simp [loop]
    | some sn =>
      have ih' := ih (fun snap st hm => h snap st (List.mem_cons_of_mem _ hm))
        (body s id sn st).1
      simp only [loop]
      rw [ih']
      by_cases hid : p = id
      · subst hid
        exact h sn st (List.mem_cons_self _ _)
      · exact body_blocked_other hL hid sn st

theorem loop_blocked_of_not_key (hL : GateLaws s) {p : PeerID} {l : List Entry}
    (hp : p ∉ keys l) (st : σ) :
    blocked s (loop s l st).state p ↔ blocked s st p :=
  loop_blocked_of_unchanged hL p l
    (fun _ _ hm => absurd (mem_keys_of_mem hm) hp) st

/-- In a map without nil values, the membership of a key after the run is the
one its own loop body produces, started from a state in which its membership
is the initial one. -/
theorem loop_at (hL : GateLaws s) {l : List Entry} (hwf : (keys l).Nodup)
    (hnn : ∀ e ∈ l, e.2 ≠ none) {p : PeerID} {snap : PeerScoreSnapshot}
    (hmem : (p, some snap) ∈ l) (st : σ) :
    ∃ st', (blocked s st' p ↔ blocked s st p) ∧
      (blocked s (loop s l st).state p ↔ blocked s (body s p snap st').1 p) := by
  induction l generalizing st with
  | nil => cases hmem
  | cons e rest ih =>
    obtain ⟨id, v⟩ := e
    have hnd : id ∉ keys rest ∧ (keys rest).Nodup := by
      simpa [keys] using hwf
    cases v with
    | none => exact absurd rfl (hnn (id, none) (List.mem_cons_self _ _))
    | some sn =>
      rcases List.mem_cons.mp hmem with heq | hin
      · obtain ⟨h1, h2⟩ := Prod.mk.inj heq
        cases h2
        subst h1
        refine ⟨st, Iff.rfl, ?_⟩
        simp only [loop]
        exact loop_blocked_of_not_key hL hnd.1 _
      · have hne : p ≠ id := by
          intro h
          exact hnd.1 (h ▸ mem_keys_of_mem hin)
        obtain ⟨st', h1, h2⟩ :=
          ih hnd.2 (fun e he => hnn e (List.mem_cons_of_mem _ he)) hin (body s id sn st).1
        refine ⟨st', h1.trans (body_blocked_other hL hne sn st), ?_⟩
        simp only [loop]
        exact h2

theorem loop_panicked_of_nonnil {l : List Entry} (hnn : ∀ e ∈ l, e.2 ≠ none) (st : σ) :
    (loop s l st).panicked = false := by
  induction l generalizing st with
  | nil => rfl
  | cons e rest ih =>
    obtain ⟨id, v⟩ := e
    cases v with
    | none => exact absurd rfl (hnn (id, none) (List.mem_cons_self _ _))
    | some sn =>
      simp only [loop]
      exact ih (fun e he => hnn e (List.mem_cons_of_mem _ he)) _

/-- Closed form of the blocked set after a run over a map without nil values,
for a gate that behaves as a set and whose calls succeed. -/
theorem final_blocked_iff (hL : GateLaws s) (hB : BlockSucceeds s) (hU : UnblockSucceeds s)
    {l : List Entry} (hwf : (keys l).Nodup) (hnn : ∀ e ∈ l, e.2 ≠ none) (st : σ)
    (p : PeerID) :
    blocked s (loop s l st).state p ↔
      (∃ snap, (p, some snap) ∈ l ∧ F64.lt snap.Score PeerScoreThreshold = true) ∨
      (blocked s st p ∧
        ¬ ∃ snap, (p, some snap) ∈ l ∧ F64.gt snap.Score PeerScoreThreshold = true) := by
  by_cases hk : p ∈ keys l
  · obtain ⟨⟨q, v⟩, hm, hq⟩ := List.mem_map.mp hk
    simp only at hq
    subst hq
    cases v with
    | none => exact absurd rfl (hnn _ hm)
    | some sn =>
      obtain ⟨st', h1, h2⟩ := loop_at hL hwf hnn hm st
      have huniq : ∀ snap, (q, some snap) ∈ l → snap = sn := fun snap h =>
        Option.some.inj (value_unique hwf h hm)
      rw [h2]
      cases hlt : F64.lt sn.Score PeerScoreThreshold with
      | true =>
        constructor
        · intro _
          exact Or.inl ⟨sn, hm, hlt⟩
        · intro _
          exact body_lt_blocked hL hB hlt st'
      | false =>
        cases hgt : F64.gt sn.Score PeerScoreThreshold with
        | true =>
          constructor
          · intro hb
            exact absurd hb (body_gt_not_blocked hL hU hgt st')
          · rintro (⟨snap, hs, hl⟩ | ⟨_, hno⟩)
            · rw [huniq snap hs, hlt] at hl
              cases hl
            · exact absurd ⟨sn, hm, hgt⟩ hno
        | false =>
          rw [body_dead_blocked hL hlt hgt, h1]
          constructor
          · intro hb
            refine Or.inr ⟨hb, ?_⟩
            rintro ⟨snap, hs, hg⟩
            rw [huniq snap hs, hgt] at hg
            cases hg
          · rintro (⟨snap, hs, hl⟩ | ⟨hb, _⟩)
            · rw [huniq snap hs, hlt] at hl
              cases hl
            · exact hb
  · rw [loop_blocked_of_not_key hL hk]
    constructor
    · intro hb
      refine Or.inr ⟨hb, ?_⟩
      rintro ⟨snap, hs, _⟩
      exact hk (mem_keys_of_mem hs)
    · rintro (⟨snap, hs, _⟩ | ⟨hb, _⟩)
      · exact absurd (mem_keys_of_mem hs) hk
      · exact hb

/-! ### Calls made by the loop -/

theorem body_block_call {p id : PeerID} {snap : PeerScoreSnapshot} {st : σ}
    (h : Call.BlockPeer p ∈ (body s id snap st).2) :
    p = id ∧ F64.lt snap.Score PeerScoreThreshold = true := by
  simp only [body, blockStep, unblockStep] at h
  split_ifs at h <;> simp_all

theorem body_unblock_call {p id : PeerID} {snap : PeerScoreSnapshot} {st : σ}
    (h : Call.UnblockPeer p ∈ (body s id snap st).2) :
    p = id ∧ F64.gt snap.Score PeerScoreThreshold = true := by
  simp only [body, blockStep, unblockStep] at h
  split_ifs at h <;> simp_all

theorem loop_block_call {p : PeerID} {l : List Entry} {st : σ}
    (h : Call.BlockPeer p ∈ (loop s l st).calls) :
    ∃ snap, (p, some snap) ∈ l ∧ F64.lt snap.Score PeerScoreThreshold = true := by
  induction l generalizing st with
  | nil => simp [loop] at h
  | cons e rest ih =>
    obtain ⟨id, v⟩ := e
    cases v with
    | none => simp [loop] at h
    | some sn =>
      simp only [loop, List.mem_append] at h
      rcases h with h | h
      · obtain ⟨h1, h2⟩ := body_block_call h
        subst h1
        exact ⟨sn, List.mem_cons_self _ _, h2⟩
      · obtain ⟨snap, hs, hl⟩ := ih h
        exact ⟨snap, List.mem_cons_of_mem _ hs, hl⟩

theorem loop_unblock_call {p : PeerID} {l : List Entry} {st : σ}
    (h : Call.UnblockPeer p ∈ (loop s l st).calls) :
    ∃ snap, (p, some snap) ∈ l ∧ F64.gt snap.Score PeerScoreThreshold = true := by
  induction l generalizing st with
  | nil => simp [loop] at h
  | cons e rest ih =>
    obtain ⟨id, v⟩ := e
    cases v with
    | none => simp [loop] at h
    | some sn =>
      simp only [loop, List.mem_append] at h
      rcases h with h | h
      · obtain ⟨h1, h2⟩ := body_unblock_call h
        subst h1
        exact ⟨sn, List.mem_cons_self _ _, h2⟩
      · obtain ⟨snap, hs, hl⟩ := ih h
        exact ⟨snap, List.mem_cons_of_mem _ hs, hl⟩

theorem body_calls_congr {σ' : Type} {s' : scorer σ'} (hL : GateLaws s) (hL' : GateLaws s')
    (id : PeerID) (snap : PeerScoreSnapshot) {st : σ} {st' : σ'}
    (hsame : blocked s st id ↔ blocked s' st' id) :
    (body s id snap st).2 = (body s' id snap st').2 := by
  have hc : contains (s.connGater.ListBlockedPeers
        (s.metricer.RecordPeerScoring id snap.Score st)) id =
      contains (s'.connGater.ListBlockedPeers
        (s'.metricer.RecordPeerScoring id snap.Score st')) id := by
    rw [Bool.eq_iff_iff, contains_eq_true_iff, contains_eq_true_iff]
    exact (hL.record_frame _ _ _ _).trans (hsame.trans (hL'.record_frame _ _ _ _).symm)
  cases hlt : F64.lt snap.Score PeerScoreThreshold with
  | true =>
    simp [body, blockStep, unblockStep, hlt, lt_threshold_not_gt _ hlt]
  | false =>
    cases hgt : F64.gt snap.Score PeerScoreThreshold with
    | true =>
      simp only [body, blockStep, unblockStep, hlt, hgt, hc, Bool.false_eq_true, if_false,
        if_true, List.nil_append]
      split_ifs <;> rfl
    | false => simp [body, blockStep, unblockStep, hlt, hgt]

/-- Two gates that behave as sets and start with the same blocked peers get
the same sequence of calls from the loop, whatever errors they return. -/
theorem loop_calls_congr {σ' : Type} {s' : scorer σ'} (hL : GateLaws s) (hL' : GateLaws s')
    {l : List Entry} (hwf : (keys l).Nodup) (st : σ) (st' : σ')
    (hsame : ∀ p ∈ keys l, (blocked s st p ↔ blocked s' st' p)) :
    (loop s l st).calls = (loop s' l st').calls := by
  induction l generalizing st st' with
  | nil => rfl
  | cons e rest ih =>
    obtain ⟨id, v⟩ := e
    have hnd : id ∉ keys rest ∧ (keys rest).Nodup := by
      simpa [keys] using hwf
    cases v with
    | none => rfl
    | some sn =>
      simp only [loop]
      rw [body_calls_congr hL hL' id sn (hsame id (by simp [keys]))]
      congr 1
      refine ih hnd.2 _ _ (fun p hp => ?_)
      have hne : p ≠ id := fun h => hnd.1 (h ▸ hp)
      rw [body_blocked_other hL hne, body_blocked_other hL' hne]
      exact hsame p (by simp only [keys, List.map_cons, List.mem_cons]; exact Or.inr hp)

/-! ### Metric events -/

theorem recordEvents_append (a b : List Call) :
    recordEvents (a ++ b) = recordEvents a ++ recordEvents b := by
  induction a with
  | nil => rfl
  | cons c rest ih => cases c <;> simp [recordEvents, ih]

theorem recordEvents_body (id : PeerID) (snap : PeerScoreSnapshot) (st : σ) :
    recordEvents (body s id snap st).2 = [(id, snap.Score)] := by
  simp only [body, blockStep, unblockStep]
  split_ifs <;> simp [recordEvents]

theorem loop_recordEvents {l : List Entry} (hnn : ∀ e ∈ l, e.2 ≠ none) (st : σ) :
    recordEvents (loop s l st).calls = scores l := by
  induction l generalizing st with
  | nil => rfl
  | cons e rest ih =>
    obtain ⟨id, v⟩ := e
    cases v with
    | none => exact absurd rfl (hnn (id, none) (List.mem_cons_self _ _))
    | some sn =>
      simp only [loop, recordEvents_append, recordEvents_body, scores]
      rw [ih (fun e he => hnn e (List.mem_cons_of_mem _ he))]
      rfl

theorem body_silenced (id : PeerID) (snap : PeerScoreSnapshot) (st : σ) :
    body (silenced s) id snap st = body s id snap st := rfl

theorem loop_silenced (l : List Entry) (st : σ) :
    loop (silenced s) l st = loop s l st := by
  induction l generalizing st with
  | nil => rfl
  | cons e rest ih =>
    obtain ⟨id, v⟩ := e
    cases v with
    | none => rfl
    | some sn => simp only [loop, body_silenced, ih]

end Loop

theorem scores_length {l : List Entry} (hnn : ∀ e ∈ l, e.2 ≠ none) :
    (scores l).length = l.length := by
  induction l with
  | nil => rfl
  | cons e rest ih =>
    obtain ⟨id, v⟩ := e
    cases v with
    | none => exact absurd rfl (hnn (id, none) (List.mem_cons_self _ _))
    | some sn =>
      simp only [scores, List.length_cons]
      rw [ih (fun e he => hnn e (List.mem_cons_of_mem _ he))]

theorem scores_filter_of_not_key {l : List Entry} {p : PeerID} (hp : p ∉ keys l) :
    (scores l).filter (fun ev => decide (ev.1 = p)) = [] := by
  induction l with
  | nil => rfl
  | cons e rest ih =>
    obtain ⟨id, v⟩ := e
    have hne : ¬ id = p := fun h => hp (by simp [keys, h])
    have hrest : p ∉ keys rest := fun h => hp (by
      simp only [keys, List.map_cons, List.mem_cons]; exact Or.inr h)
    cases v with
    | none => simpa [scores] using ih hrest
    | some sn => simpa [scores, hne] using ih hrest

theorem scores_filter_of_mem {l : List Entry} (hwf : (keys l).Nodup) {p : PeerID}
    {snap : PeerScoreSnapshot} (hmem : (p, some snap) ∈ l) :
    (scores l).filter (fun ev => decide (ev.1 = p)) = [(p, snap.Score)] := by
  induction l with
  | nil => cases hmem
  | cons e rest ih =>
    obtain ⟨id, v⟩ := e
    have hnd : id ∉ keys rest ∧ (keys rest).Nodup := by
      simpa [keys] using hwf
    rcases List.mem_cons.mp hmem with heq | hin
    · obtain ⟨h1, h2⟩ := Prod.mk.inj heq
      subst h1
      subst h2
      simp [scores, scores_filter_of_not_key hnd.1]
    · have hne : ¬ id = p := fun h => hnd.1 (h ▸ mem_keys_of_mem hin)
      cases v with
      | none => simpa [scores] using ih hnd.2 hin
      | some sn => simpa [scores, hne] using ih hnd.2 hin

theorem scores_perm {l l' : List Entry} (h : l.Perm l') : (scores l).Perm (scores l') := by
  induction h with
  | nil => exact List.Perm.refl _
  | cons e _ ih =>
    obtain ⟨id, v⟩ := e
    cases v with
    | none => simpa [scores] using ih
    | some sn => simpa [scores] using ih
  | swap a b t =>
    obtain ⟨ia, va⟩ := a
    obtain ⟨ib, vb⟩ := b
    cases va <;> cases vb <;> simp [scores, List.Perm.swap]
  | trans _ _ ih1 ih2 => exact ih1.trans ih2

/-! ## The concrete gates satisfy the laws -/

theorem setScorer_laws : GateLaws setScorer where
  record_frame := fun _ _ _ _ => Iff.rfl
  block_frame := by
    intro id st p hne
    simp only [blocked, setScorer, NewScorer, setGate]
    split_ifs <;> simp [hne]
  unblock_frame := by
    intro id st p hne
    simp [blocked, setScorer, NewScorer, setGate, hne]
  block_ok := by
    intro id st _
    simp only [blocked, setScorer, NewScorer, setGate]
    split_ifs with h
    · exact h
    · exact List.mem_cons_self _ _
  unblock_ok := by
    intro id st _
    simp [blocked, setScorer, NewScorer, setGate]

theorem setScorer_blockSucceeds : BlockSucceeds setScorer := fun _ _ => rfl

theorem setScorer_unblockSucceeds : UnblockSucceeds setScorer := fun _ _ => rfl

theorem faultyScorer_laws (failB failU : PeerID → Bool) :
    GateLaws (faultyScorer failB failU) where
  record_frame := fun _ _ _ _ => Iff.rfl
  block_frame := by
    intro id st p hne
    simp only [blocked, faultyScorer, NewScorer, faultyGate, setGate]
    split_ifs <;> simp [hne]
  unblock_frame := by
    intro id st p hne
    simp only [blocked, faultyScorer, NewScorer, faultyGate, setGate]
    split_ifs <;> simp [hne]
  block_ok := by
    intro id st
    simp only [blocked, faultyScorer, NewScorer, faultyGate, setGate]
    split_ifs with h1 h2
    · intro h
      cases h
    · exact fun _ => h2
    · exact fun _ => List.mem_cons_self _ _
  unblock_ok := by
    intro id st
    simp only [blocked, faultyScorer, NewScorer, faultyGate, setGate]
    split_ifs with h1
    · intro h
      cases h
    · simp

/-! ## Facts about the concrete inputs -/

theorem snapAB_wf : snapAB.WF := by decide

theorem snapAB_nonNil : snapAB.NonNil := by decide

theorem snapRecovered_wf : snapRecovered.WF := by decide

theorem snapRecovered_nonNil : snapRecovered.NonNil := by decide

theorem snapBoundary_wf : snapBoundary.WF := by decide

theorem snapCD_wf : snapCD.WF := by decide

theorem snapCD_nonNil : snapCD.NonNil := by decide

/-! ## Block and unblock decisions -/

/-- C1: for a gate that behaves as a set and whose `BlockPeer` calls succeed,
and for every map with non-nil values and every initial world state, every peer
of the map whose score is strictly below `PeerScoreThreshold` is in the blocked
set after the hook has run. -/
theorem snapshotHook_blocks_below_threshold {σ : Type} (s : scorer σ) (hL : GateLaws s)
    (hB : BlockSucceeds s) (m : Snapshot) (hwf : m.WF) (hnn : m.NonNil) (st : σ)
    (p : PeerID) (snap : PeerScoreSnapshot) (hmem : (p, some snap) ∈ m.entries)
    (hlt : F64.lt snap.Score PeerScoreThreshold = true) :
    blocked s (SnapshotHook s m st).state p := by
  obtain ⟨st', _, h2⟩ := loop_at hL hwf hnn hmem st
  exact h2.mpr (body_lt_blocked hL hB hlt st')

/-- Scenario 1 on the set gate: `A` (score -150) ends blocked. -/
theorem snapshotHook_blocks_below_threshold_witness :
    blocked setScorer (SnapshotHook setScorer snapAB []).state "A" :=
  snapshotHook_blocks_below_threshold setScorer setScorer_laws setScorer_blockSucceeds
    snapAB snapAB_wf snapAB_nonNil [] "A" ⟨.fin (-150)⟩ (by decide) (by decide)

/-- C2: for a gate that behaves as a set and whose `UnblockPeer` calls succeed,
and for every map with non-nil values, every peer that was blocked before the
run and whose score is strictly above `PeerScoreThreshold` is not in the
blocked set after the hook has run. -/
theorem snapshotHook_unblocks_above_threshold {σ : Type} (s : scorer σ) (hL : GateLaws s)
    (hU : UnblockSucceeds s) (m : Snapshot) (hwf : m.WF) (hnn : m.NonNil) (st : σ)
    (p : PeerID) (snap : PeerScoreSnapshot) (hmem : (p, some snap) ∈ m.entries)
    (hgt : F64.gt snap.Score PeerScoreThreshold = true) (_hwas : blocked s st p) :
    ¬ blocked s (SnapshotHook s m st).state p := by
  obtain ⟨st', _, h2⟩ := loop_at hL hwf hnn hmem st
  exact fun hb => body_gt_not_blocked hL hU hgt st' (h2.mp hb)

/-- Scenario 2 on the set gate: `A` blocked, score -90, ends unblocked. -/
theorem snapshotHook_unblocks_above_threshold_witness :
    ¬ blocked setScorer (SnapshotHook setScorer snapRecovered ["A"]).state "A" :=
  snapshotHook_unblocks_above_threshold setScorer setScorer_laws setScorer_unblockSucceeds
    snapRecovered snapRecovered_wf snapRecovered_nonNil ["A"] "A" ⟨.fin (-90)⟩
    (by decide) (by decide) (by decide)

/-- C3: a peer whose score equals `PeerScoreThreshold` gets neither a
`BlockPeer` nor an `UnblockPeer` call in the run, whatever the gate; and when
the gate behaves as a set, the peer is in the blocked set after the run exactly
when it was before. -/
theorem snapshotHook_threshold_dead_zone {σ : Type} (s : scorer σ) (m : Snapshot)
    (hwf : m.WF) (st : σ) (p : PeerID) (snap : PeerScoreSnapshot)
    (hmem : (p, some snap) ∈ m.entries) (hsc : snap.Score = PeerScoreThreshold) :
    Call.BlockPeer p ∉ (SnapshotHook s m st).calls ∧
    Call.UnblockPeer p ∉ (SnapshotHook s m st).calls ∧
    (GateLaws s → (blocked s (SnapshotHook s m st).state p ↔ blocked s st p)) := by
  have huniq : ∀ sn, (p, some sn) ∈ m.entries → sn.Score = PeerScoreThreshold :=
    fun sn h => by rw [Option.some.inj (value_unique hwf h hmem), hsc]
  refine ⟨?_, ?_, ?_⟩
  · intro h
    obtain ⟨sn, hs, hl⟩ := loop_block_call h
    rw [huniq sn hs, threshold_not_lt] at hl
    cases hl
  · intro h
    obtain ⟨sn, hs, hg⟩ := loop_unblock_call h
    rw [huniq sn hs, threshold_not_gt] at hg
    cases hg
  · intro hL
    refine loop_blocked_of_unchanged hL p m.entries (fun sn x hs => ?_) st
    have h := huniq sn hs
    exact body_dead_blocked hL (by rw [h]; exact threshold_not_lt)
      (by rw [h]; exact threshold_not_gt) x

/-- Scenario 3 on the set gate: `A` blocked, score -100, no gate call for `A`
and `A` stays blocked. -/
theorem snapshotHook_threshold_dead_zone_witness :
    Call.BlockPeer "A" ∉ (SnapshotHook setScorer snapBoundary ["A"]).calls ∧
    Call.UnblockPeer "A" ∉ (SnapshotHook setScorer snapBoundary ["A"]).calls ∧
    (blocked setScorer (SnapshotHook setScorer snapBoundary ["A"]).state "A" ↔
      blocked setScorer ["A"] "A") :=
  have h := snapshotHook_threshold_dead_zone setScorer snapBoundary snapBoundary_wf ["A"] "A"
    ⟨.fin (-100)⟩ (by decide) rfl
  ⟨h.1, h.2.1, h.2.2 setScorer_laws⟩

/-- C4: for a gate that behaves as a set and whose calls succeed, running the
hook a second time on the same map (visited in any order) leaves the blocked
set as the first run left it. -/
theorem snapshotHook_idempotent {σ : Type} (s : scorer σ) (hL : GateLaws s)
    (hB : BlockSucceeds s) (hU : UnblockSucceeds s) (m m' : Snapshot)
    (hperm : m.entries.Perm m'.entries) (hwf : m.WF) (hnn : m.NonNil) (st : σ)
    (p : PeerID) :
    blocked s (SnapshotHook s m' (SnapshotHook s m st).state).state p ↔
      blocked s (SnapshotHook s m st).state p := by
  have hwf' : (keys m'.entries).Nodup := (hperm.map Prod.fst).nodup_iff.mp hwf
  have hnn' : ∀ e ∈ m'.entries, e.2 ≠ none := fun e he => hnn e (hperm.mem_iff.mpr he)
  have hmem : ∀ sn, (p, some sn) ∈ m'.entries ↔ (p, some sn) ∈ m.entries :=
    fun sn => hperm.mem_iff.symm
  simp only [SnapshotHook]
  rw [final_blocked_iff hL hB hU hwf' hnn', final_blocked_iff hL hB hU hwf hnn]
  simp only [hmem]
  constructor
  · rintro (h | ⟨h, _⟩)
    · exact Or.inl h
    · exact h
  · rintro (h | ⟨hb, hno⟩)
    · exact Or.inl h
    · exact Or.inr ⟨Or.inr ⟨hb, hno⟩, hno⟩

/-- Scenario 1 run twice on the set gate, the second time in the other order. -/
theorem snapshotHook_idempotent_witness :
    blocked setScorer
        (SnapshotHook setScorer snapBA (SnapshotHook setScorer snapAB []).state).state "A" ↔
      blocked setScorer (SnapshotHook setScorer snapAB []).state "A" :=
  snapshotHook_idempotent setScorer setScorer_laws setScorer_blockSucceeds
    setScorer_unblockSucceeds snapAB snapBA (List.Perm.swap _ _ _) snapAB_wf snapAB_nonNil
    [] "A"

/-! ## Connection notifications -/

/-- C5 fails on the code: no read-out of the receiver and the world, whatever
it is, shows no record for peer `A` before an `OnDisconnect` and a count of 1
after it. -/
theorem onDisconnect_records_nothing :
    ¬ ∃ count : scorer (List PeerID) × List PeerID → PeerID → Nat,
      count (setScorer, []) "A" = 0 ∧ count (OnDisconnect setScorer []) "A" = 1 := by
  rintro ⟨count, h0, h1⟩
  simp only [OnDisconnect] at h1
  omega

/-- C5 (amended): `OnConnect` and `OnDisconnect` take no peer and have empty
bodies; after any sequence of such calls the receiver and the world state are
the ones before the sequence, so nothing is counted. -/
theorem notifyAll_unchanged {σ : Type} (evs : List PeerEvent) (s : scorer σ) (st : σ) :
    notifyAll evs s st = (s, st) := by
  induction evs with
  | nil => rfl
  | cons e rest ih =>
    cases e <;> simpa [notifyAll, OnConnect, OnDisconnect] using ih

/-! ## Metrics -/

/-- C6: for every map with non-nil values and whatever the gate does, the
metric events of one run are exactly the `(id, score)` pairs of the entries, in
visiting order; there are as many as entries; and each peer of the map has
exactly one event, carrying its own score. -/
theorem snapshotHook_records_each_peer_once {σ : Type} (s : scorer σ) (m : Snapshot)
    (hwf : m.WF) (hnn : m.NonNil) (st : σ) :
    recordEvents (SnapshotHook s m st).calls = scores m.entries ∧
    (recordEvents (SnapshotHook s m st).calls).length = m.entries.length ∧
    ∀ p snap, (p, some snap) ∈ m.entries →
      (recordEvents (SnapshotHook s m st).calls).filter (fun ev => decide (ev.1 = p)) =
        [(p, snap.Score)] := by
  have h : recordEvents (SnapshotHook s m st).calls = scores m.entries :=
    loop_recordEvents hnn st
  refine ⟨h, ?_, ?_⟩
  · rw [h]
    exact scores_length hnn
  · intro p snap hmem
    rw [h]
    exact scores_filter_of_mem hwf hmem

/-- Scenario 1 on the set gate: one metric event for `A` and one for `B`. -/
theorem snapshotHook_records_each_peer_once_witness :
    recordEvents (SnapshotHook setScorer snapAB []).calls = scores snapAB.entries ∧
    (recordEvents (SnapshotHook setScorer snapAB []).calls).length = snapAB.entries.length ∧
    ∀ p snap, (p, some snap) ∈ snapAB.entries →
      (recordEvents (SnapshotHook setScorer snapAB []).calls).filter
          (fun ev => decide (ev.1 = p)) = [(p, snap.Score)] :=
  snapshotHook_records_each_peer_once setScorer snapAB snapAB_wf snapAB_nonNil []

/-! ## Gate errors -/

/-- C7: let the gate behave as a set, and let every `BlockPeer` and
`UnblockPeer` call for peer `c` return an error and leave the membership of `c`
as it was. On a map with non-nil values the run does not panic; the calls it
makes are, one for one, those it makes on any other gate that behaves as a set
and starts with the same blocked peers (in particular one whose calls all
succeed); and `c` is in the blocked set after the run exactly when it was
before. -/
theorem snapshotHook_absorbs_gate_errors {σ σ' : Type} (s : scorer σ) (s' : scorer σ')
    (hL : GateLaws s) (hL' : GateLaws s') (m : Snapshot) (hwf : m.WF) (hnn : m.NonNil)
    (st : σ) (st' : σ') (hsame : ∀ p, blocked s st p ↔ blocked s' st' p) (c : PeerID)
    (hB : ∀ x, (s.connGater.BlockPeer c x).2 ≠ none ∧
      (blocked s (s.connGater.BlockPeer c x).1 c ↔ blocked s x c))
    (hU : ∀ x, (s.connGater.UnblockPeer c x).2 ≠ none ∧
      (blocked s (s.connGater.UnblockPeer c x).1 c ↔ blocked s x c)) :
    (SnapshotHook s m st).panicked = false ∧
    (SnapshotHook s m st).calls = (SnapshotHook s' m st').calls ∧
    (blocked s (SnapshotHook s m st).state c ↔ blocked s st c) := by
  refine ⟨loop_panicked_of_nonnil hnn st, ?_, ?_⟩
  · exact loop_calls_congr hL hL' hwf st st' (fun p _ => hsame p)
  · exact loop_blocked_of_unchanged hL c m.entries
      (fun sn x _ => body_self_of_nochange hL (fun y => (hB y).2) (fun y => (hU y).2) sn x) st

/-- Scenario 5: the gate fails every call for `C` (score -200) while `D`
(score -50) is blocked; compared with the set gate. -/
theorem snapshotHook_absorbs_gate_errors_witness :
    (SnapshotHook (faultyScorer onlyC onlyC) snapCD ["D"]).panicked = false ∧
    (SnapshotHook (faultyScorer onlyC onlyC) snapCD ["D"]).calls =
      (SnapshotHook setScorer snapCD ["D"]).calls ∧
    (blocked (faultyScorer onlyC onlyC)
        (SnapshotHook (faultyScorer onlyC onlyC) snapCD ["D"]).state "C" ↔
      blocked (faultyScorer onlyC onlyC) ["D"] "C") :=
  snapshotHook_absorbs_gate_errors (faultyScorer onlyC onlyC) setScorer
    (faultyScorer_laws onlyC onlyC) setScorer_laws snapCD snapCD_wf snapCD_nonNil
    ["D"] ["D"] (fun _ => Iff.rfl) "C"
    (fun x => ⟨by simp [faultyScorer, NewScorer, faultyGate, onlyC],
      by simp [faultyScorer, NewScorer, faultyGate, onlyC]⟩)
    (fun x => ⟨by simp [faultyScorer, NewScorer, faultyGate, onlyC],
      by simp [faultyScorer, NewScorer, faultyGate, onlyC]⟩)

/-- C8 fails on the code: `BlockPeer` for `C` returns an error on the faulty
gate and nil on the set gate. With `C` already blocked the two runs are equal
in every component; with nothing blocked they make the same calls and both
complete. -/
theorem blockPeer_error_leaves_no_trace :
    ((faultyScorer onlyC noPeer).connGater.BlockPeer "C" ["C"]).2 ≠ none ∧
    (setScorer.connGater.BlockPeer "C" ["C"]).2 = none ∧
    SnapshotHook (faultyScorer onlyC noPeer) snapC ["C"] = SnapshotHook setScorer snapC ["C"] ∧
    ((faultyScorer onlyC noPeer).connGater.BlockPeer "C" []).2 ≠ none ∧
    (SnapshotHook (faultyScorer onlyC noPeer) snapC []).calls =
      (SnapshotHook setScorer snapC []).calls ∧
    (SnapshotHook (faultyScorer onlyC noPeer) snapC []).panicked =
      (SnapshotHook setScorer snapC []).panicked := by
  decide

/-- C8 (amended): the hook discards the errors the gate returns. Replacing
every returned error by nil, with the gate otherwise acting as before, gives
the same run: the same world state, the same calls in the same order, the same
completion. -/
theorem snapshotHook_ignores_gate_errors {σ : Type} (s : scorer σ) (m : Snapshot) (st : σ) :
    SnapshotHook (silenced s) m st = SnapshotHook s m st :=
  loop_silenced m.entries st

/-! ## Empty map and visiting order -/

/-- C9: on the empty map and on the nil map the hook makes no call, leaves the
world state as it was, and completes. -/
theorem snapshotHook_empty {σ : Type} (s : scorer σ) (st : σ) :
    SnapshotHook s (some []) st = { state := st, calls := [], panicked := false } ∧
    SnapshotHook s none st = { state := st, calls := [], panicked := false } :=
  ⟨rfl, rfl⟩

/-- C10: for a gate that behaves as a set and whose calls succeed, two visiting
orders of the same map (non-nil values) end with the same blocked peers and the
same multiset of metric events. -/
theorem snapshotHook_order_independent {σ : Type} (s : scorer σ) (hL : GateLaws s)
    (hB : BlockSucceeds s) (hU : UnblockSucceeds s) (m m' : Snapshot)
    (hperm : m.entries.Perm m'.entries) (hwf : m.WF) (hnn : m.NonNil) (st : σ) :
    (∀ p, blocked s (SnapshotHook s m st).state p ↔
      blocked s (SnapshotHook s m' st).state p) ∧
    (Multiset.ofList (recordEvents (SnapshotHook s m st).calls) =
      Multiset.ofList (recordEvents (SnapshotHook s m' st).calls)) := by
  have hwf' : (keys m'.entries).Nodup := (hperm.map Prod.fst).nodup_iff.mp hwf
  have hnn' : ∀ e ∈ m'.entries, e.2 ≠ none := fun e he => hnn e (hperm.mem_iff.mpr he)
  constructor
  · intro p
    have hmem : ∀ sn, (p, some sn) ∈ m'.entries ↔ (p, some sn) ∈ m.entries :=
      fun sn => hperm.mem_iff.symm
    simp only [SnapshotHook]
    rw [final_blocked_iff hL hB hU hwf' hnn', final_blocked_iff hL hB hU hwf hnn]
    simp only [hmem]
  · simp only [SnapshotHook]
    rw [loop_recordEvents hnn, loop_recordEvents hnn']
    exact Multiset.coe_eq_coe.mpr (scores_perm hperm)

/-- Scenario 1 on the set gate, visited as `A, B` and as `B, A`. -/
theorem snapshotHook_order_independent_witness :
    (∀ p, blocked setScorer (SnapshotHook setScorer snapAB []).state p ↔
      blocked setScorer (SnapshotHook setScorer snapBA []).state p) ∧
    (Multiset.ofList (recordEvents (SnapshotHook setScorer snapAB []).calls) =
      Multiset.ofList (recordEvents (SnapshotHook setScorer snapBA []).calls)) :=
  snapshotHook_order_independent setScorer setScorer_laws setScorer_blockSucceeds
    setScorer_unblockSucceeds snapAB snapBA (List.Perm.swap _ _ _) snapAB_wf snapAB_nonNil []

/-! ## The loop body against the specification's chain -/

section Refinement

variable {σ : Type} {s : scorer σ}

theorem body_eq_specEvaluateStep (id : PeerID) (snap : PeerScoreSnapshot) (st : σ) :
    body s id snap st = specEvaluateStep s id snap.Score st := by
  cases hlt : F64.lt snap.Score PeerScoreThreshold with
  | true =>
    simp [body, blockStep, unblockStep, specEvaluateStep, hlt, lt_threshold_not_gt _ hlt]
  | false =>
    cases hgt : F64.gt snap.Score PeerScoreThreshold with
    | true =>
      simp only [body, blockStep, unblockStep, specEvaluateStep, hlt, hgt, Bool.false_eq_true,
        if_false, if_true, List.nil_append]
      split_ifs <;> rfl
    | false => simp [body, blockStep, unblockStep, specEvaluateStep, hlt, hgt]

theorem loop_eq_specEvaluate {l : List Entry} (hnn : ∀ e ∈ l, e.2 ≠ none) (st : σ) :
    ((loop s l st).state, (loop s l st).calls) = specEvaluate s (scores l) st := by
  induction l generalizing st with
  | nil => rfl
  | cons e rest ih =>
    obtain ⟨id, v⟩ := e
    cases v with
    | none => exact absurd rfl (hnn (id, none) (List.mem_cons_self _ _))
    | some sn =>
      have h := ih (fun e he => hnn e (List.mem_cons_of_mem _ he)) (body s id sn st).1
      simp only [loop, scores, specEvaluate, ← body_eq_specEvaluateStep, ← h]

theorem mutatingCalls_append (p : PeerID) (a b : List Call) :
    mutatingCalls p (a ++ b) = mutatingCalls p a ++ mutatingCalls p b := by
  simp [mutatingCalls]

theorem mutatingCalls_body_other {p id : PeerID} (hne : id ≠ p) (snap : PeerScoreSnapshot)
    (st : σ) : mutatingCalls p (body s id snap st).2 = [] := by
  simp only [body, blockStep, unblockStep]
  split_ifs <;> simp [mutatingCalls, isMutatingFor, hne]

theorem mutatingCalls_body_le (p id : PeerID) (snap : PeerScoreSnapshot) (st : σ) :
    (mutatingCalls p (body s id snap st).2).length ≤ 1 := by
  cases hlt : F64.lt snap.Score PeerScoreThreshold with
  | true =>
    simp only [body, blockStep, unblockStep, hlt, lt_threshold_not_gt _ hlt, mutatingCalls]
    by_cases h : id = p <;> simp [isMutatingFor, h]
  | false =>
    simp only [body, blockStep, unblockStep, hlt, mutatingCalls, Bool.false_eq_true, if_false,
      List.nil_append]
    split_ifs <;> by_cases h : id = p <;> simp [isMutatingFor, h]

theorem mutatingCalls_loop_of_not_key {p : PeerID} {l : List Entry} (hp : p ∉ keys l)
    (st : σ) : mutatingCalls p (loop s l st).calls = [] := by
  induction l generalizing st with
  | nil => rfl
  | cons e rest ih =>
    obtain ⟨id, v⟩ := e
    have hne : id ≠ p := fun h => hp (by simp [keys, h])
    have hrest : p ∉ keys rest := fun h => hp (by
      simp only [keys, List.map_cons, List.mem_cons]; exact Or.inr h)
    cases v with
    | none => rfl
    | some sn =>
      simp only [loop, mutatingCalls_append, mutatingCalls_body_other hne, ih hrest,
        List.append_nil]

theorem mutatingCalls_loop_le {l : List Entry} (hwf : (keys l).Nodup) (p : PeerID) (st : σ) :
    (mutatingCalls p (loop s l st).calls).length ≤ 1 := by
  induction l generalizing st with
  | nil => simp [loop, mutatingCalls]
  | cons e rest ih =>
    obtain ⟨id, v⟩ := e
    have hnd : id ∉ keys rest ∧ (keys rest).Nodup := by
      simpa [keys] using hwf
    cases v with
    | none => simp [loop, mutatingCalls]
    | some sn =>
      simp only [loop, mutatingCalls_append, List.length_append]
      by_cases h : id = p
      · subst h
        rw [mutatingCalls_loop_of_not_key hnd.1]
        simpa using mutatingCalls_body_le id id sn st
      · rw [mutatingCalls_body_other h]
        simpa using ih hnd.2 _

theorem body_unblock_call_contains {p id : PeerID} {snap : PeerScoreSnapshot} {st : σ}
    (h : Call.UnblockPeer p ∈ (body s id snap st).2) :
    p = id ∧ contains (s.connGater.ListBlockedPeers
      (s.metricer.RecordPeerScoring id snap.Score st)) id = true := by
  cases hlt : F64.lt snap.Score PeerScoreThreshold with
  | true =>
    simp [body, blockStep, unblockStep, hlt, lt_threshold_not_gt _ hlt] at h
  | false =>
    simp only [body, blockStep, unblockStep, hlt, Bool.false_eq_true, if_false,
      List.nil_append] at h
    split_ifs at h <;> simp_all

theorem loop_unblock_call_blocked (hL : GateLaws s) {l : List Entry} (hwf : (keys l).Nodup)
    {p : PeerID} {st : σ} (h : Call.UnblockPeer p ∈ (loop s l st).calls) :
    blocked s st p := by
  induction l generalizing st with
  | nil => simp [loop] at h
  | cons e rest ih =>
    obtain ⟨id, v⟩ := e
    have hnd : id ∉ keys rest ∧ (keys rest).Nodup := by
      simpa [keys] using hwf
    cases v with
    | none => simp [loop] at h
    | some sn =>
      simp only [loop, List.mem_append] at h
      rcases h with h | h
      · obtain ⟨h1, h2⟩ := body_unblock_call_contains h
        subst h1
        exact (hL.record_frame _ _ _ _).mp ((contains_eq_true_iff _ _).mp h2)
      · obtain ⟨snap, hs, _⟩ := loop_unblock_call h
        have hne : p ≠ id := fun e => hnd.1 (e ▸ mem_keys_of_mem hs)
        exact (body_blocked_other hL hne sn st).mp (ih hnd.2 h)

end Refinement

/-- C11: the loop body is the specification's `if ... else if ...` chain, step
for step, and on a map with non-nil values the run is the specification's
`Evaluate` on the map's scores. In one run over a map each peer gets at most
one mutating gate call (`BlockPeer` and `UnblockPeer` counted together). An
`UnblockPeer` call is made only when the list just returned by
`ListBlockedPeers` contains the peer; for a gate that behaves as a set this is
a peer that was blocked when the run started. -/
theorem snapshotHook_refines_spec_chain {σ : Type} (s : scorer σ) (m : Snapshot)
    (hwf : m.WF) (st : σ) :
    (∀ id snap x, body s id snap x = specEvaluateStep s id snap.Score x) ∧
    (m.NonNil → ((SnapshotHook s m st).state, (SnapshotHook s m st).calls) =
      specEvaluate s (scores m.entries) st) ∧
    (∀ p, (mutatingCalls p (SnapshotHook s m st).calls).length ≤ 1) ∧
    (∀ id snap x, Call.UnblockPeer id ∈ (body s id snap x).2 →
      contains (s.connGater.ListBlockedPeers
        (s.metricer.RecordPeerScoring id snap.Score x)) id = true) ∧
    (GateLaws s → ∀ p, Call.UnblockPeer p ∈ (SnapshotHook s m st).calls → blocked s st p) :=
  ⟨fun id snap x => body_eq_specEvaluateStep id snap x,
    fun hnn => loop_eq_specEvaluate hnn st,
    fun p => mutatingCalls_loop_le hwf p st,
    fun _ _ _ h => (body_unblock_call_contains h).2,
    fun hL _ h => loop_unblock_call_blocked hL hwf h⟩

/-- Scenario 5 on the set gate with `D` blocked: `C` is blocked, `D` unblocked,
one mutating call each. -/
theorem snapshotHook_refines_spec_chain_witness :
    (∀ id snap x, body setScorer id snap x = specEvaluateStep setScorer id snap.Score x) ∧
    (((SnapshotHook setScorer snapCD ["D"]).state, (SnapshotHook setScorer snapCD ["D"]).calls) =
      specEvaluate setScorer (scores snapCD.entries) ["D"]) ∧
    (∀ p, (mutatingCalls p (SnapshotHook setScorer snapCD ["D"]).calls).length ≤ 1) ∧
    (∀ id snap x, Call.UnblockPeer id ∈ (body setScorer id snap x).2 →
      contains (setScorer.connGater.ListBlockedPeers
        (setScorer.metricer.RecordPeerScoring id snap.Score x)) id = true) ∧
    (∀ p, Call.UnblockPeer p ∈ (SnapshotHook setScorer snapCD ["D"]).calls →
      blocked setScorer ["D"] p) :=
  have h := snapshotHook_refines_spec_chain setScorer snapCD snapCD_wf ["D"]
  ⟨h.1, h.2.1 snapCD_nonNil, h.2.2.1, h.2.2.2.1, h.2.2.2.2 setScorer_laws⟩

/-! ## Connection history, closed form, nil values -/

section History

variable {σ : Type} {s : scorer σ}

theorem notifyAll_id (evs : List PeerEvent) (s : scorer σ) (st : σ) :
    notifyAll evs s st = (s, st) := by
  induction evs with
  | nil => rfl
  | cons e rest ih =>
    cases e
    · simp only [notifyAll, OnConnect]
      exact ih
    · simp only [notifyAll, OnDisconnect]
      exact ih

theorem body_block_call_of_lt {id : PeerID} {snap : PeerScoreSnapshot}
    (hlt : F64.lt snap.Score PeerScoreThreshold = true) (st : σ) :
    Call.BlockPeer id ∈ (body s id snap st).2 := by
  simp [body, blockStep, hlt]

theorem body_unblock_call_of_gt {id : PeerID} {snap : PeerScoreSnapshot}
    (hgt : F64.gt snap.Score PeerScoreThreshold = true) {st : σ}
    (hc : contains (s.connGater.ListBlockedPeers
      (s.metricer.RecordPeerScoring id snap.Score st)) id = true) :
    Call.UnblockPeer id ∈ (body s id snap st).2 := by
  simp [body, blockStep, unblockStep, hgt, gt_threshold_not_lt _ hgt, hc]

theorem loop_block_call_of_mem {l : List Entry} (hnn : ∀ e ∈ l, e.2 ≠ none) {p : PeerID}
    {snap : PeerScoreSnapshot} (hmem : (p, some snap) ∈ l)
    (hlt : F64.lt snap.Score PeerScoreThreshold = true) (st : σ) :
    Call.BlockPeer p ∈ (loop s l st).calls := by
  induction l generalizing st with
  | nil => cases hmem
  | cons e rest ih =>
    obtain ⟨id, v⟩ := e
    cases v with
    | none => exact absurd rfl (hnn (id, none) (List.mem_cons_self _ _))
    | some sn =>
      simp only [loop, List.mem_append]
      rcases List.mem_cons.mp hmem with heq | hin
      · obtain ⟨h1, h2⟩ := Prod.mk.inj heq
        cases h2
        subst h1
        exact Or.inl (body_block_call_of_lt hlt st)
      · exact Or.inr (ih (fun e he => hnn e (List.mem_cons_of_mem _ he)) hin _)

theorem loop_unblock_call_of_mem (hL : GateLaws s) {l : List Entry} (hwf : (keys l).Nodup)
    (hnn : ∀ e ∈ l, e.2 ≠ none) {p : PeerID} {snap : PeerScoreSnapshot}
    (hmem : (p, some snap) ∈ l) (hgt : F64.gt snap.Score PeerScoreThreshold = true) {st : σ}
    (hb : blocked s st p) :
    Call.UnblockPeer p ∈ (loop s l st).calls := by
  induction l generalizing st with
  | nil => cases hmem
  | cons e rest ih =>
    obtain ⟨id, v⟩ := e
    have hnd : id ∉ keys rest ∧ (keys rest).Nodup := by
      simpa [keys] using hwf
    cases v with
    | none => exact absurd rfl (hnn (id, none) (List.mem_cons_self _ _))
    | some sn =>
      simp only [loop, List.mem_append]
      rcases List.mem_cons.mp hmem with heq | hin
      · obtain ⟨h1, h2⟩ := Prod.mk.inj heq
        cases h2
        subst h1
        exact Or.inl (body_unblock_call_of_gt hgt
          ((contains_eq_true_iff _ _).mpr ((hL.record_frame _ _ _ _).mpr hb)))
      · have hne : p ≠ id := fun h => hnd.1 (h ▸ mem_keys_of_mem hin)
        exact Or.inr (ih hnd.2 (fun e he => hnn e (List.mem_cons_of_mem _ he)) hin
          ((body_blocked_other hL hne sn st).mpr hb))

theorem loop_panicked_iff (l : List Entry) (st : σ) :
    (loop s l st).panicked = false ↔ ∀ e ∈ l, e.2 ≠ none := by
  induction l generalizing st with
  | nil => simp [loop]
  | cons e rest ih =>
    obtain ⟨id, v⟩ := e
    cases v with
    | none => simp [loop]
    | some sn => simp [loop, ih]

theorem loop_stops_at_nil {pre : List Entry} (hpre : ∀ e ∈ pre, e.2 ≠ none) (id : PeerID)
    (post : List Entry) (st : σ) :
    loop s (pre ++ (id, none) :: post) st =
      { state := (loop s pre st).state, calls := (loop s pre st).calls, panicked := true } := by
  induction pre generalizing st with
  | nil => simp [loop]
  | cons e rest ih =>
    obtain ⟨k, v⟩ := e
    cases v with
    | none => exact absurd rfl (hpre (k, none) (List.mem_cons_self _ _))
    | some sn =>
      have h := ih (fun e he => hpre e (List.mem_cons_of_mem _ he)) (body s k sn st).1
      rw [List.cons_append]
      simp only [loop, List.append_eq]
      rw [h]

end History

/-- C12: whatever sequence of `OnConnect` / `OnDisconnect` calls precedes it,
the run of the hook is the run without them: same calls in the same order,
same state, same completion. The comparison uses the entry's `Score` as it
is: on a map with non-nil values `BlockPeer` is called for a peer exactly when
its score is below `PeerScoreThreshold`, and, for a gate that behaves as a set,
`UnblockPeer` exactly when its score is above the threshold and the peer was
blocked at the start. -/
theorem snapshotHook_ignores_connection_history {σ : Type} (evs : List PeerEvent)
    (s : scorer σ) (m : Snapshot) (st : σ) :
    SnapshotHook (notifyAll evs s st).1 m (notifyAll evs s st).2 = SnapshotHook s m st ∧
    (m.WF → m.NonNil → ∀ p snap, (p, some snap) ∈ m.entries →
      ((Call.BlockPeer p ∈ (SnapshotHook (notifyAll evs s st).1 m (notifyAll evs s st).2).calls ↔
          F64.lt snap.Score PeerScoreThreshold = true) ∧
        (GateLaws s →
          (Call.UnblockPeer p ∈
              (SnapshotHook (notifyAll evs s st).1 m (notifyAll evs s st).2).calls ↔
            F64.gt snap.Score PeerScoreThreshold = true ∧ blocked s st p)))) := by
  rw [notifyAll_id]
  refine ⟨rfl, ?_⟩
  intro hwf hnn p snap hmem
  have huniq : ∀ sn, (p, some sn) ∈ m.entries → sn = snap := fun sn h =>
    Option.some.inj (value_unique hwf h hmem)
  refine ⟨⟨fun h => ?_, fun h => loop_block_call_of_mem hnn hmem h st⟩, fun hL => ⟨fun h => ?_,
    fun h => loop_unblock_call_of_mem hL hwf hnn hmem h.1 h.2⟩⟩
  · obtain ⟨sn, hs, hl⟩ := loop_block_call h
    rw [huniq sn hs] at hl
    exact hl
  · obtain ⟨sn, hs, hg⟩ := loop_unblock_call h
    rw [huniq sn hs] at hg
    exact ⟨hg, loop_unblock_call_blocked hL hwf h⟩

/-- The map `{A: -95}` after a connect and a disconnect, on the set gate: the
run is the one without the notifications, and `A` is not blocked although
`-95 + ConnectionFactor` is below the threshold. -/
theorem snapshotHook_ignores_connection_history_witness :
    SnapshotHook (notifyAll [PeerEvent.connect, PeerEvent.disconnect] setScorer []).1 snapNear
        (notifyAll [PeerEvent.connect, PeerEvent.disconnect] setScorer []).2 =
      SnapshotHook setScorer snapNear [] ∧
    (Call.BlockPeer "A" ∈
        (SnapshotHook (notifyAll [PeerEvent.connect, PeerEvent.disconnect] setScorer []).1
          snapNear (notifyAll [PeerEvent.connect, PeerEvent.disconnect] setScorer []).2).calls ↔
      F64.lt (F64.fin (-95)) PeerScoreThreshold = true) ∧
    (Call.UnblockPeer "A" ∈
        (SnapshotHook (notifyAll [PeerEvent.connect, PeerEvent.disconnect] setScorer []).1
          snapNear (notifyAll [PeerEvent.connect, PeerEvent.disconnect] setScorer []).2).calls ↔
      F64.gt (F64.fin (-95)) PeerScoreThreshold = true ∧ blocked setScorer [] "A") :=
  have h := snapshotHook_ignores_connection_history
    [PeerEvent.connect, PeerEvent.disconnect] setScorer snapNear []
  have h2 := h.2 (by decide) (by decide) "A" ⟨.fin (-95)⟩ (by decide)
  ⟨h.1, h2.1, h2.2 setScorer_laws⟩

/-- C13: for a gate that behaves as a set and whose calls succeed, and a map
with non-nil values, a peer is blocked after the run exactly when it was
blocked before and is not a key with a score above the threshold, or it is a
key with a score below the threshold. A peer that is not a key keeps its
status and gets no `BlockPeer` and no `UnblockPeer` call. -/
theorem snapshotHook_closed_form {σ : Type} (s : scorer σ) (hL : GateLaws s)
    (hB : BlockSucceeds s) (hU : UnblockSucceeds s) (m : Snapshot) (hwf : m.WF)
    (hnn : m.NonNil) (st : σ) :
    (∀ p, blocked s (SnapshotHook s m st).state p ↔
      (blocked s st p ∧
        ¬ ∃ snap, (p, some snap) ∈ m.entries ∧ F64.gt snap.Score PeerScoreThreshold = true) ∨
      (∃ snap, (p, some snap) ∈ m.entries ∧ F64.lt snap.Score PeerScoreThreshold = true)) ∧
    (∀ p, p ∉ keys m.entries →
      (blocked s (SnapshotHook s m st).state p ↔ blocked s st p) ∧
      Call.BlockPeer p ∉ (SnapshotHook s m st).calls ∧
      Call.UnblockPeer p ∉ (SnapshotHook s m st).calls) := by
  constructor
  · intro p
    simp only [SnapshotHook]
    rw [final_blocked_iff hL hB hU hwf hnn st p]
    exact Or.comm
  · intro p hp
    refine ⟨loop_blocked_of_not_key hL hp st, fun h => ?_, fun h => ?_⟩
    · obtain ⟨sn, hs, _⟩ := loop_block_call h
      exact hp (mem_keys_of_mem hs)
    · obtain ⟨sn, hs, _⟩ := loop_unblock_call h
      exact hp (mem_keys_of_mem hs)

/-- Scenario 5 on the set gate with `D` and `E` blocked beforehand. -/
theorem snapshotHook_closed_form_witness :
    (∀ p, blocked setScorer (SnapshotHook setScorer snapCD ["D", "E"]).state p ↔
      (blocked setScorer ["D", "E"] p ∧
        ¬ ∃ snap, (p, some snap) ∈ snapCD.entries ∧
          F64.gt snap.Score PeerScoreThreshold = true) ∨
      (∃ snap, (p, some snap) ∈ snapCD.entries ∧
        F64.lt snap.Score PeerScoreThreshold = true)) ∧
    (∀ p, p ∉ keys snapCD.entries →
      (blocked setScorer (SnapshotHook setScorer snapCD ["D", "E"]).state p ↔
        blocked setScorer ["D", "E"] p) ∧
      Call.BlockPeer p ∉ (SnapshotHook setScorer snapCD ["D", "E"]).calls ∧
      Call.UnblockPeer p ∉ (SnapshotHook setScorer snapCD ["D", "E"]).calls) :=
  snapshotHook_closed_form setScorer setScorer_laws setScorer_blockSucceeds
    setScorer_unblockSucceeds snapCD snapCD_wf snapCD_nonNil ["D", "E"]

/-- C14: for every gate and metricer and every initial state, the run ends
without a panic exactly when every value of the map is non-nil. When the map
is visited as `pre`, then an entry with a nil value, then `post`, with no nil
in `pre`, the run is the run over `pre` ended by a panic: the nil entry and the
entries of `post` get no call. -/
theorem snapshotHook_panics_iff_nil_value {σ : Type} (s : scorer σ) (m : Snapshot) (st : σ) :
    ((SnapshotHook s m st).panicked = false ↔ m.NonNil) ∧
    (∀ pre id post, m.entries = pre ++ (id, none) :: post → (∀ e ∈ pre, e.2 ≠ none) →
      SnapshotHook s m st =
        { state := (SnapshotHook s (some pre) st).state,
          calls := (SnapshotHook s (some pre) st).calls,
          panicked := true }) := by
  constructor
  · exact loop_panicked_iff m.entries st
  · intro pre id post hm hpre
    show loop s m.entries st = _
    rw [hm]
    exact loop_stops_at_nil hpre id post st

/-- The map `A, B (nil), C` on the set gate: the run is the run over `A` alone,
ended by a panic. -/
theorem snapshotHook_panics_iff_nil_value_witness :
    ((SnapshotHook setScorer snapNil []).panicked = false ↔ snapNil.NonNil) ∧
    SnapshotHook setScorer snapNil [] =
      { state := (SnapshotHook setScorer (some [("A", some ⟨.fin (-150)⟩)]) []).state,
        calls := (SnapshotHook setScorer (some [("A", some ⟨.fin (-150)⟩)]) []).calls,
        panicked := true } :=
  have h := snapshotHook_panics_iff_nil_value setScorer snapNil []
  ⟨h.1, h.2 [("A", some ⟨.fin (-150)⟩)] "B" [("C", some ⟨.fin (-200)⟩)] rfl (by decide)⟩

/-- C15: `contains peers id` is true exactly when `id` occurs in `peers`, and
false exactly when it does not; it is false on the empty slice (a nil slice has
no elements either). It is a total function: it returns a value on every
slice. -/
theorem contains_iff_occurs (peers : List PeerID) (id : PeerID) :
    (contains peers id = true ↔ id ∈ peers) ∧
    (contains peers id = false ↔ id ∉ peers) ∧
    contains [] id = false := by
  refine ⟨contains_eq_true_iff peers id, ?_, rfl⟩
  rw [← contains_eq_true_iff peers id]
  cases contains peers id <;> simp

end PeerScorer
